import Mathlib

/-!
Shallow embedding of the path-management and package-registry core of
`flopy/mf6` (`_file_management.py` and `mfbase.py`), together with proofs
of the specification's claims about it.

Python strings are modelled as Lean `String`; string helpers that Python
takes from the standard library (`str.split`, `str.lower`, slicing,
`os.path.*`, `pathlib.PurePosixPath`) are re-implemented here as
structurally recursive functions over the underlying character lists, so
that every definition evaluates by `decide`/`rfl`.  Paths are modelled
POSIX-lexically (separator `/`); the `pathlib` double-slash-root quirk
(`//a`) and non-ASCII case folding are not modelled, and no claim depends
on them.
-/

/-- Python exceptions that the modelled code can raise. -/
inductive PyErr where
  | keyError
  | typeError
  | indexError
  /-- AttributeError raised when reading a missing attribute; carries the
  attribute name. -/
  | attributeError (attr : String)
deriving DecidableEq, Repr

/-- Single-quote character, written via its code point. -/
def squote : Char := Char.ofNat 39

/-- Double-quote character, written via its code point. -/
def dquote : Char := Char.ofNat 34

/-- Models Python `str.lower` (ASCII). -/
def pyLower (s : String) : String := ⟨s.data.map Char.toLower⟩

/-- Models the Python slice `s[0:-1]` (drop the last character). -/
def pyInit (s : String) : String := ⟨s.data.dropLast⟩

/-- Models `file_path.replace("'", "").replace('"', "")` in `resolve_path`. -/
def stripQuotes (s : String) : String :=
  ⟨s.data.filter (fun c => ¬ (c = squote ∨ c = dquote))⟩

/-- Models POSIX `os.path.isabs` / `PurePosixPath.is_absolute`:
the path starts with the separator. -/
def isabs (s : String) : Bool := s.data.head? = some '/'

/-- Models Python `str.split(sep)` for a one-character separator `sep`,
over character lists.  `split [] = [[]]`, matching `"".split(sep) == ['']`. -/
def splitOnChar (sep : Char) : List Char → List (List Char)
  | [] => [[]]
  | c :: cs =>
    if c = sep then [] :: splitOnChar sep cs
    else
      match splitOnChar sep cs with
      | g :: gs => (c :: g) :: gs
      | [] => [[c]]

/-- Models `PurePosixPath.parts` minus the root: split on `/`, dropping
empty components and `.` components (pathlib normalization). -/
def partsOf (l : List Char) : List (List Char) :=
  (splitOnChar '/' l).filter (fun g => ¬ (g = [] ∨ g = ['.']))

/-- Interleave components with the separator `/`. -/
def joinComps : List (List Char) → List Char
  | [] => []
  | [g] => g
  | g :: gs => g ++ '/' :: joinComps gs

/-- Models `str(PurePosixPath(...))` given the absolute flag and the
normalized components: `/`-joined components, with root prefix when
absolute and `.` for an empty relative path. -/
def pathStrData (ab : Bool) (cs : List (List Char)) : List Char :=
  if ab then '/' :: joinComps cs
  else if cs = [] then ['.'] else joinComps cs

/-- Models `str(PurePosixPath(s))` (equal to `PurePosixPath(s).as_posix()`). -/
def pathStr (s : String) : String := ⟨pathStrData (isabs s) (partsOf s.data)⟩

/-- Models the two-argument POSIX `os.path.join(a, b)`. -/
def joinPath (a b : String) : String :=
  if isabs b then b
  else if a = "" ∨ a.data.getLast? = some '/' then a ++ b
  else a ++ "/" ++ b

/-- Models `PurePath.relative_to` on parsed paths (absolute flag and
normalized components): succeeds when the anchors agree and the base's
components are a prefix, returning the remaining components; `none`
models the `ValueError`. -/
def relativeToParts (pab : Bool) (pcs : List (List Char)) (qab : Bool)
    (qcs : List (List Char)) : Option (List (List Char)) :=
  if pab = qab ∧ qcs.isPrefixOf pcs then some (pcs.drop qcs.length) else none

/-- Association-list lookup, modelling Python `dict[k]` / `dict.get(k)`. -/
def dictGet? {κ α : Type} [DecidableEq κ] (d : List (κ × α)) (k : κ) :
    Option α :=
  match d with
  | [] => none
  | (k', v) :: rest => if k' = k then some v else dictGet? rest k

/-- Models Python `k in dict`. -/
def dictContains {κ α : Type} [DecidableEq κ] (d : List (κ × α)) (k : κ) :
    Bool :=
  (dictGet? d k).isSome

/-- Models Python `dict[k] = v`: update in place when the key exists,
otherwise append (dicts preserve insertion order). -/
def dictSet {κ α : Type} [DecidableEq κ] (d : List (κ × α)) (k : κ) (v : α) :
    List (κ × α) :=
  match d with
  | [] => [(k, v)]
  | (k', v') :: rest =>
    if k' = k then (k, v) :: rest else (k', v') :: dictSet rest k v

/-- Models Python `del dict[k]`. -/
def dictDel {κ α : Type} [DecidableEq κ] (d : List (κ × α)) (k : κ) :
    List (κ × α) :=
  d.filter (fun kv => ¬ kv.1 = k)

/-- MFFilePath: a file-path specification together with the models that
reference it (the Python `model_name` dict's values are always `0`, so
only its key list is modelled). -/
structure MFFilePath where
  file_path : String
  model_names : List String
deriving DecidableEq, Repr

/-- Models `MFFilePath.isabs`. -/
def MFFilePath.isabsSpec (fp : MFFilePath) : Bool := isabs fp.file_path

/-- Argument of `resolve_path`: either a raw path string or an
`MFFilePath` record. -/
inductive PathSpec where
  | raw (s : String)
  | filePath (fp : MFFilePath)
deriving DecidableEq, Repr

/-- Models the `str(...)` extraction at the top of `resolve_path`. -/
def PathSpec.str : PathSpec → String
  | .raw s => s
  | .filePath fp => fp.file_path

/-- MFFileMgmt state, translated from `MFFileMgmt.__init__`.  The
`_sim_path` attribute is a string (set by `set_sim_path`); the snapshot
root `_last_loaded_sim_path` starts as `None`, hence `Option`.  Note the
class defines no `structure`, `_path` or `_simulation_data` attribute. -/
structure MFFileMgmt where
  sim_path : String
  existing_file_dict : List (String × MFFilePath)
  model_relative_path : List (String × String)
  last_loaded_sim_path : Option String
  last_loaded_model_relative_path : List (String × String)
deriving DecidableEq, Repr

/-- Models `MFFileMgmt.get_sim_path`. -/
def get_sim_path (st : MFFileMgmt) (last_loaded_path : Bool) : Option String :=
  if last_loaded_path then st.last_loaded_sim_path else some st.sim_path

/-- Models `MFFileMgmt.resolve_path`.  `none` arises only when the
selected root is Python `None` (the join would raise `TypeError`, and in
the absolute/move branch Python would return the `None` value). -/
def resolve_path (st : MFFileMgmt) (path : PathSpec)
    (last_loaded_path : Bool) (move_abs_paths : Bool) : Option String :=
  let file_path := stripQuotes path.str
  if isabs file_path then
    if move_abs_paths then get_sim_path st last_loaded_path
    else some file_path
  else
    (get_sim_path st last_loaded_path).map (fun root => joinPath root file_path)

/-- Models `MFFileMgmt.get_model_path`.  In the `last_loaded_path` branch
the code indexes `_last_loaded_model_relative_path[key]` unconditionally
(`KeyError` when absent, evaluated before the join, which itself raises
`TypeError` when the snapshot root is `None`). -/
def get_model_path (st : MFFileMgmt) (key : String) (last_loaded_path : Bool) :
    Except PyErr String :=
  if last_loaded_path then
    match dictGet? st.last_loaded_model_relative_path key with
    | none => .error .keyError
    | some rel =>
      match st.last_loaded_sim_path with
      | none => .error .typeError
      | some root => .ok (joinPath root rel)
  else
    match dictGet? st.model_relative_path key with
    | some rel => .ok (joinPath st.sim_path rel)
    | none => .ok st.sim_path

/-- Result of `strip_model_relative_path`: the returned string and whether
`warnings.warn` was invoked on the way. -/
structure StripResult where
  result : String
  warned : Bool
deriving DecidableEq, Repr

/-- Models `MFFileMgmt.strip_model_relative_path`.  The Python guard
`model_rel_path is None` is always false (a `Path` is never `None`) and
`not any(str(model_rel_path))` means `str(model_rel_path) == ""`, which a
`Path` string never is; both are kept for faithfulness. -/
def strip_model_relative_path (st : MFFileMgmt) (model_name path : String) :
    StripResult :=
  match dictGet? st.model_relative_path model_name with
  | none => ⟨path, false⟩
  | some rp =>
    if isabs rp ∨ pathStr rp = "" ∨ pathStr rp = "." then ⟨path, false⟩
    else
      match relativeToParts (isabs path) (partsOf path.data) (isabs rp)
          (partsOf rp.data) with
      | some r => ⟨⟨pathStrData false r⟩, false⟩
      | none => ⟨pathStr path, true⟩

/-- Index of the last occurrence of `c` in `l`, if any (used to model
`genericpath._splitext`'s `rfind`). -/
def lastIdxOf (c : Char) : List Char → Option Nat
  | [] => none
  | x :: xs =>
    match lastIdxOf c xs with
    | some i => some (i + 1)
    | none => if x = c then some 0 else none

/-- Models POSIX `os.path.splitext`: split at the last `.` of the final
component, unless every character of that component before the dot is
itself a dot (leading dots are not an extension). -/
def splitext (p : String) : String × String :=
  let sepIdx : Option Nat := lastIdxOf '/' p.data
  let nameStart : Nat :=
    match sepIdx with
    | none => 0
    | some s => s + 1
  match lastIdxOf '.' p.data with
  | none => (p, "")
  | some di =>
    if nameStart ≤ di ∧
        ((p.data.drop nameStart).take (di - nameStart)).any (fun c => ¬ c = '.')
    then (⟨p.data.take di⟩, ⟨p.data.drop di⟩)
    else (p, "")

/-- Models the static method `MFFileMgmt._build_file`. -/
def build_file (file_name : String) (num : Nat) : String :=
  let fe := splitext file_name
  if ¬ fe.2 = "" then fe.1 ++ "_" ++ Nat.repr num ++ fe.2
  else fe.1 ++ "_" ++ Nat.repr num

/-- The `while` loop of `unique_file_name`, with an explicit fuel
argument.  `uniqueNum_eq_least` below shows that the fuel used by
`unique_file_name` always suffices, so this equals the unbounded Python
loop. -/
def findAbsentNum (file_name : String) (lookup : List String) :
    Nat → Nat → Nat
  | 0, num => num
  | fuel + 1, num =>
    if build_file file_name num ∈ lookup then
      findAbsentNum file_name lookup fuel (num + 1)
    else num

/-- Models the static method `MFFileMgmt.unique_file_name`.  The fuel
`lookup.length + 1` is justified by `exists_build_file_notMem`: some
`num ≤ lookup.length` already escapes the lookup, so the bounded loop
computes exactly what the Python `while` loop computes. -/
def unique_file_name (file_name : String) (lookup : List String) : String :=
  build_file file_name (findAbsentNum file_name lookup (lookup.length + 1) 0)

/-- Filesystem oracle consumed by `copy_files`: existence tests and the
outcome of each attempted `shutil.copyfile`. -/
structure FileSystem where
  isfile : String → Bool
  copyOk : String → String → Bool

/-- Outcome of `copy_files`: the source/destination pairs actually copied,
in order, and either the returned count or the raised exception. -/
structure CopyOutcome where
  copies : List (String × String)
  outcome : Except PyErr Nat
deriving Repr

/-- Loop body of `MFFileMgmt.copy_files` over `existing_file_dict.values()`.
The counter `num_files_copied += 1` sits inside the
`if path_old != path_new:` block, after the `try`, so it counts only
successful copies; a file whose old and new resolved paths coincide is
skipped without counting.  When `copyfile` fails, the handler builds an
`MFDataException` from `self.structure.get_model()` — but `MFFileMgmt`
defines no attribute `structure` (see `MFFileMgmt.__init__`), so
evaluating the handler raises `AttributeError("structure")` instead.
The `TypeError` branches are unreachable under `copy_files`'s snapshot
guard. -/
def copy_files_loop (st : MFFileMgmt) (fs : FileSystem)
    (copy_relative_only : Bool) :
    List MFFilePath → List (String × String) → Nat → CopyOutcome
  | [], copies, cnt => ⟨copies, .ok cnt⟩
  | fp :: rest, copies, cnt =>
    match resolve_path st (.filePath fp) true false with
    | none => ⟨copies, .error .typeError⟩
    | some path_old =>
      if fs.isfile path_old ∧ (¬ fp.isabsSpec ∨ ¬ copy_relative_only) then
        match resolve_path st (.filePath fp) false false with
        | none => ⟨copies, .error .typeError⟩
        | some path_new =>
          if ¬ path_old = path_new then
            if fs.copyOk path_old path_new then
              copy_files_loop st fs copy_relative_only rest
                (copies ++ [(path_old, path_new)]) (cnt + 1)
            else ⟨copies, .error (.attributeError "structure")⟩
          else copy_files_loop st fs copy_relative_only rest copies cnt
      else copy_files_loop st fs copy_relative_only rest copies cnt

/-- Models `MFFileMgmt.copy_files`. -/
def copy_files (st : MFFileMgmt) (fs : FileSystem)
    (copy_relative_only : Bool) : CopyOutcome :=
  match st.last_loaded_sim_path with
  | none => ⟨[], .ok 0⟩
  | some _ =>
    copy_files_loop st fs copy_relative_only
      (st.existing_file_dict.map (·.2)) [] 0

/-- Component of a key of the hierarchical data store
(`simulation_data.mfdata`): keys are tuples mixing strings (names, block
names) and integers (e.g. period numbers). -/
inductive DataKeyItem where
  | s (v : String)
  | i (v : Int)
deriving DecidableEq, Repr

/-- A package handle, with the attributes `PackageContainer` reads:
`package_name`, `package_type`, `filename` and the identity `path`.
Python compares packages by object identity; distinct packages are
modelled as structurally distinct values. -/
structure Package where
  package_name : Option String
  package_type : String
  filename : Option String
  path : List DataKeyItem
deriving DecidableEq, Repr

/-- A `PackageContainer` together with the `mfdata` store of its
`_simulation_data` (the only part of `SimulationData` this code touches),
with store values of type `V`. -/
structure PackageContainer (V : Type) where
  packagelist : List Package
  package_type_dict : List (String × List Package)
  package_name_dict : List (String × Package)
  package_filename_dict : List (String × Package)
  mfdata : List (List DataKeyItem × V)
deriving DecidableEq, Repr

/-- Models Python `list.remove(x)` (drop the first occurrence), as used on
`packagelist` and the type buckets; `remove_package` only calls it under
a membership guard, so the `ValueError` case cannot arise. -/
def listRemove {α : Type} [DecidableEq α] : List α → α → List α
  | [], _ => []
  | y :: ys, x => if y = x then ys else y :: listRemove ys x

/-- Models `PackageContainer.add_package`.  Note the bucket-existence
check tests the raw `package.package_type` against the dict while the
bucket is created and extended under `package.package_type.lower()`. -/
def add_package {V : Type} (c : PackageContainer V) (p : Package) :
    PackageContainer V :=
  let c := { c with packagelist := c.packagelist ++ [p] }
  let c :=
    match p.package_name with
    | some nm =>
      { c with package_name_dict := dictSet c.package_name_dict (pyLower nm) p }
    | none => c
  let c :=
    match p.filename with
    | some fn =>
      { c with
        package_filename_dict := dictSet c.package_filename_dict (pyLower fn) p }
    | none => c
  let c :=
    if dictContains c.package_type_dict p.package_type then c
    else
      { c with
        package_type_dict := dictSet c.package_type_dict (pyLower p.package_type) [] }
  { c with
    package_type_dict :=
      dictSet c.package_type_dict (pyLower p.package_type)
        ((dictGet? c.package_type_dict (pyLower p.package_type)).getD [] ++ [p]) }

/-- The `is_subkey` test of `remove_package`/`_rename_package`: positional
equality of `package.path` against the key over `zip`, i.e. over the
shorter of the two tuples. -/
def isSubkey (path key : List DataKeyItem) : Bool :=
  (List.zip path key).all (fun pd => pd.1 = pd.2)

/-- Models `PackageContainer.remove_package`: unhook the package from the
list and the three indexes, then collect every store key passing the
`is_subkey` scan and delete the collected keys. -/
def remove_package {V : Type} (c : PackageContainer V) (p : Package) :
    PackageContainer V :=
  let c :=
    if p ∈ c.packagelist then
      { c with packagelist := listRemove c.packagelist p }
    else c
  let c :=
    match p.package_name with
    | some nm =>
      if dictContains c.package_name_dict (pyLower nm) then
        { c with package_name_dict := dictDel c.package_name_dict (pyLower nm) }
      else c
    | none => c
  let c :=
    match p.filename with
    | some fn =>
      if dictContains c.package_filename_dict (pyLower fn) then
        { c with
          package_filename_dict := dictDel c.package_filename_dict (pyLower fn) }
      else c
    | none => c
  let c :=
    match dictGet? c.package_type_dict (pyLower p.package_type) with
    | some bucket =>
      let bucket := if p ∈ bucket then listRemove bucket p else bucket
      if bucket = [] then
        { c with
          package_type_dict := dictDel c.package_type_dict (pyLower p.package_type) }
      else
        { c with
          package_type_dict :=
            dictSet c.package_type_dict (pyLower p.package_type) bucket }
    | none => c
  let items_to_remove := (c.mfdata.map (·.1)).filter (fun k => isSubkey p.path k)
  { c with
    mfdata :=
      items_to_remove.foldl
        (fun d k => d.filter (fun kv => ¬ kv.1 = k)) c.mfdata }

/-- Models `PackageContainer._rename_package`.  The replacement key is
`package.path[:-1] + (new_name,) + key[len(package.path) - 1:]` — note
the `- 1`.  `main_dict[new_key] = main_dict.pop(key)` is pop (read and
delete) followed by insertion.  (For the empty `package.path`, Python's
negative-index slicing differs from `List.drop`; package paths are never
empty.) -/
def rename_package {V : Type} (c : PackageContainer V) (p : Package)
    (new_name : String) : PackageContainer V :=
  let c :=
    match p.package_name with
    | some nm =>
      if dictContains c.package_name_dict (pyLower nm) then
        { c with package_name_dict := dictDel c.package_name_dict (pyLower nm) }
      else c
    | none => c
  let c :=
    { c with
      package_name_dict := dictSet c.package_name_dict (pyLower new_name) p }
  let items_to_fix := (c.mfdata.map (·.1)).filter (fun k => isSubkey p.path k)
  { c with
    mfdata :=
      items_to_fix.foldl
        (fun d key =>
          let new_key :=
            p.path.dropLast ++ [DataKeyItem.s new_name] ++
              key.drop (p.path.length - 1)
          match dictGet? d key with
          | some v => dictSet (dictDel d key) new_key v
          | none => d) c.mfdata }

/-- Hyphen-splitting used by `_in_pkg_list` (Python `s.split("-")`). -/
def splitHyphen (s : String) : List String :=
  (splitOnChar '-' s.data).map (fun g => (⟨g⟩ : String))

/-- First hyphen-separated segment of the lowered type code
(`pkg_type[0]` after the split; the split list is never empty). -/
def firstTypeSeg (t : String) : String := (splitHyphen t).headD ""

/-- Models the static method `PackageContainer._in_pkg_list` (the spec's
`match_pkg_list`).  The ruleset dict is modelled by its key list (its
values are never read).  `int(pkg_type[0][-1])` succeeds exactly on a
digit (`ValueError` otherwise, caught and turned into `False`), and on an
empty first segment the indexing itself raises `IndexError`, which is not
caught. -/
def in_pkg_list (pkg_list : List String) (pkg_type pkg_name : String) :
    Except PyErr Bool :=
  let t := pyLower pkg_type
  let n := pyLower pkg_name
  if t ∈ pkg_list ∨ n ∈ pkg_list then .ok true
  else
    let tsegs := splitHyphen t
    match (firstTypeSeg t).data.getLast? with
    | none => .error .indexError
    | some c =>
      if c.isDigit then
        .ok (pkg_list.any (fun key =>
          let ksegs := splitHyphen key
          ksegs.length = tsegs.length ∧
            (List.zip ksegs tsegs).all
              (fun kp => pyInit kp.2 = kp.1 ∨ kp.2 = kp.1)))
      else .ok false

/-- Example state used by witnesses. -/
def exSt : MFFileMgmt :=
  { sim_path := "/root/sim"
    existing_file_dict := []
    model_relative_path := [("m", "model1")]
    last_loaded_sim_path := some "/old/sim"
    last_loaded_model_relative_path := [] }

/-- C1: after quote-stripping, an absolute path spec resolves to itself
under default flags (for every state, hence independent of the root), and
to the selected root under `move_abs_paths`; a relative spec resolves to
the join of the selected root and the stripped path. -/
theorem resolve_path_spec (st : MFFileMgmt) (p : PathSpec) (last : Bool) :
    (isabs (stripQuotes p.str) = true →
      resolve_path st p false false = some (stripQuotes p.str)) ∧
    (isabs (stripQuotes p.str) = true →
      resolve_path st p last true = get_sim_path st last) ∧
    (isabs (stripQuotes p.str) = false → ∀ r, get_sim_path st last = some r →
      resolve_path st p last false = some (joinPath r (stripQuotes p.str))) := by
  refine ⟨fun h => by simp [resolve_path, h], fun h => by simp [resolve_path, h],
    fun h r hr => by simp [resolve_path, h, hr]⟩

theorem resolve_path_spec_witness :
    resolve_path exSt (.raw "'/data/a.txt'") false false = some "/data/a.txt" ∧
    resolve_path exSt (.raw "'/data/a.txt'") true true = some "/old/sim" ∧
    resolve_path exSt (.raw "rel/b.txt") false false =
      some "/root/sim/rel/b.txt" := by
  refine ⟨?_, ?_, ?_⟩
  · exact ((resolve_path_spec exSt (.raw "'/data/a.txt'") false).1
      (by decide)).trans (by decide)
  · exact ((resolve_path_spec exSt (.raw "'/data/a.txt'") true).2.1
      (by decide)).trans (by decide)
  · exact (((resolve_path_spec exSt (.raw "rel/b.txt") false).2.2
      (by decide)) "/root/sim" (by decide)).trans (by decide)

/-- C9: the digit-tolerant membership test accepts `("gwf6", "wel-1")`
against ruleset key `gwf` and rejects `("gwf6", "wel")` against `riv`;
and when neither lowered input is a direct key and the last character of
the first hyphen-separated segment of the lowered type code is not a
digit, the result is `False` with no digit-tolerant retry. -/
theorem in_pkg_list_spec :
    in_pkg_list ["gwf"] "gwf6" "wel-1" = .ok true ∧
    in_pkg_list ["riv"] "gwf6" "wel" = .ok false ∧
    ∀ (pl : List String) (t n : String) (c : Char),
      pyLower t ∉ pl → pyLower n ∉ pl →
      (firstTypeSeg (pyLower t)).data.getLast? = some c → c.isDigit = false →
      in_pkg_list pl t n = .ok false := by
  refine ⟨by rfl, by rfl, fun pl t n c ht hn hc hd => ?_⟩
  simp [in_pkg_list, ht, hn, hc, hd]

theorem in_pkg_list_spec_witness :
    in_pkg_list ["riv"] "abc" "x" = .ok false :=
  in_pkg_list_spec.2.2 ["riv"] "abc" "x" 'c' (by decide) (by decide)
    (by decide) (by decide)

/-- C8 (amended): with `last_loaded_path = False`, `get_model_path` joins
the current root with the registered relative path and falls back to the
current root for unregistered models, never failing; with
`last_loaded_path = True` it joins the snapshot root with the snapshot
relative path when the model is in the snapshot mapping, and raises
`KeyError` otherwise. -/
theorem get_model_path_amended (st : MFFileMgmt) (key : String) :
    (∀ rel, dictGet? st.model_relative_path key = some rel →
      get_model_path st key false = .ok (joinPath st.sim_path rel)) ∧
    (dictGet? st.model_relative_path key = none →
      get_model_path st key false = .ok st.sim_path) ∧
    (∀ rel root, dictGet? st.last_loaded_model_relative_path key = some rel →
      st.last_loaded_sim_path = some root →
      get_model_path st key true = .ok (joinPath root rel)) ∧
    (dictGet? st.last_loaded_model_relative_path key = none →
      get_model_path st key true = .error .keyError) := by
  refine ⟨fun rel h => by simp [get_model_path, h],
    fun h => by simp [get_model_path, h],
    fun rel root h hr => by simp [get_model_path, h, hr],
    fun h => by simp [get_model_path, h]⟩

theorem get_model_path_amended_witness :
    get_model_path exSt "m" false = .ok (joinPath exSt.sim_path "model1") ∧
    joinPath exSt.sim_path "model1" = "/root/sim/model1" ∧
    get_model_path exSt "zz" true = .error PyErr.keyError :=
  ⟨(get_model_path_amended exSt "m").1 "model1" (by decide), by decide,
    (get_model_path_amended exSt "zz").2.2.2 (by decide)⟩

/-- C8 counterexample: model `m` has a registered relative path in `exSt`,
yet `get_model_path` with `last_loaded_path = True` raises `KeyError`
instead of returning a joined snapshot path or the snapshot root: the
snapshot mapping is indexed unconditionally. -/
theorem get_model_path_counterexample :
    get_model_path exSt "m" true = .error PyErr.keyError := rfl

/-- Example packages with type strings equal up to case. -/
def pkgWel1 : Package :=
  { package_name := some "w1", package_type := "wel", filename := none
    path := [.s "gwf1", .s "wel", .s "w1"] }

def pkgWel2 : Package :=
  { package_name := some "w2", package_type := "WEL", filename := none
    path := [.s "gwf1", .s "wel", .s "w2"] }

/-- An empty container. -/
def emptyCont : PackageContainer Nat := ⟨[], [], [], [], []⟩

/-- C2 failing input: adding a package of type `wel` and then one of type
`WEL` leaves both in the ordered list, but the `by_type` bucket for `wel`
holds only the second — the raw-cased existence check misses the lowered
bucket key, so the bucket is reset to `[]` before the second append and
the first package vanishes from the index. -/
theorem add_package_case_bug :
    (add_package (add_package emptyCont pkgWel1) pkgWel2).packagelist
        = [pkgWel1, pkgWel2] ∧
    (add_package (add_package emptyCont pkgWel1) pkgWel2).package_type_dict
        = [("wel", [pkgWel2])] := by decide

/-- The package of the spec's rename example. -/
def pkgWEL1 : Package :=
  { package_name := some "WEL-1", package_type := "wel", filename := none
    path := [.s "gwf1", .s "wel", .s "WEL-1"] }

/-- A container holding `pkgWEL1` and one store entry under its path. -/
def contWEL1 : PackageContainer Nat :=
  { packagelist := [pkgWEL1]
    package_type_dict := [("wel", [pkgWEL1])]
    package_name_dict := [("wel-1", pkgWEL1)]
    package_filename_dict := []
    mfdata := [([.s "gwf1", .s "wel", .s "WEL-1", .s "period", .i 1], 7)] }

/-- C3 failing input: renaming the package at path
`("gwf1","wel","WEL-1")` to `WEL-2` re-keys the store entry
`("gwf1","wel","WEL-1","period",1)` to
`("gwf1","wel","WEL-2","WEL-1","period",1)` — the slice
`key[len(package.path) - 1:]` keeps the old identity component — and the
key the claim expects, `("gwf1","wel","WEL-2","period",1)`, is absent. -/
theorem rename_package_offbyone :
    (rename_package contWEL1 pkgWEL1 "WEL-2").mfdata =
      [([.s "gwf1", .s "wel", .s "WEL-2", .s "WEL-1", .s "period", .i 1], 7)] ∧
    dictGet? (rename_package contWEL1 pkgWEL1 "WEL-2").mfdata
      [.s "gwf1", .s "wel", .s "WEL-2", .s "period", .i 1] = none := by decide

/-- State for the C4 failing input: three relative external files, with a
snapshot root present and a changed current root. -/
def copySt : MFFileMgmt :=
  { sim_path := "/new"
    existing_file_dict :=
      [("a.txt", ⟨"a.txt", ["m"]⟩), ("b.txt", ⟨"b.txt", ["m"]⟩),
        ("c.txt", ⟨"c.txt", ["m"]⟩)]
    model_relative_path := []
    last_loaded_sim_path := some "/old"
    last_loaded_model_relative_path := [] }

/-- Filesystem oracle for C4: every old path exists; the copy of
`/old/b.txt` fails. -/
def copyFs : FileSystem :=
  { isfile := fun _ => true
    copyOk := fun old _ => ¬ old = "/old/b.txt" }

/-- C4 failing input, evaluated: when the second file's copy fails, the
loop raises immediately (only the first file was copied), but the raised
error is `AttributeError("structure")` — the handler reads
`self.structure`, which `MFFileMgmt` does not define — not the
`MFDataException` with model/package/path context the claim promises. -/
theorem copy_files_attribute_error :
    copy_files copySt copyFs true =
      ⟨[("/old/a.txt", "/new/a.txt")], .error (.attributeError "structure")⟩ :=
  rfl

lemma mem_foldl_del {V : Type} (ks : List (List DataKeyItem))
    (d : List (List DataKeyItem × V)) (kv : List DataKeyItem × V) :
    kv ∈ ks.foldl (fun d k => d.filter (fun kv => ¬ kv.1 = k)) d ↔
      kv ∈ d ∧ kv.1 ∉ ks := by
  induction ks generalizing d with
  | nil => simp
  | cons k ks ih =>
    rw [List.foldl_cons, ih]
    simp only [List.mem_filter, List.mem_cons, decide_not, Bool.not_eq_eq_eq_not,
      Bool.not_true, decide_eq_false_iff_not]
    constructor
    · rintro ⟨⟨h1, h2⟩, h3⟩
      exact ⟨h1, by simp [h2, h3]⟩
    · rintro ⟨h1, h2⟩
      push_neg at h2
      exact ⟨⟨h1, h2.1⟩, h2.2⟩

lemma isSubkey_cons (a b : DataKeyItem) (ps ks : List DataKeyItem) :
    isSubkey (a :: ps) (b :: ks) = (decide (a = b) && isSubkey ps ks) := by
  simp [isSubkey]

lemma isSubkey_iff (path key : List DataKeyItem) :
    isSubkey path key = true ↔
      ∀ i, i < min path.length key.length → path.get? i = key.get? i := by
  induction path generalizing key with
  | nil => simp [isSubkey]
  | cons a ps ih =>
    cases key with
    | nil => simp [isSubkey]
    | cons b ks =>
      rw [isSubkey_cons, Bool.and_eq_true, decide_eq_true_iff, ih ks]
      constructor
      · rintro ⟨h1, h2⟩ i hi
        cases i with
        | zero => simp [h1]
        | succ j =>
          have hj : j < min ps.length ks.length := by
            simp only [List.length_cons] at hi
            omega
          simpa using h2 j hj
      · intro h
        refine ⟨?_, fun j hj => ?_⟩
        · have := h 0 (by simp only [List.length_cons]; omega)
          simpa using this
        · have := h (j + 1) (by simp only [List.length_cons]; omega)
          simpa using this

lemma remove_package_mfdata {V : Type} (c : PackageContainer V) (p : Package) :
    (remove_package c p).mfdata =
      ((c.mfdata.map (·.1)).filter (fun k => isSubkey p.path k)).foldl
        (fun d k => d.filter (fun kv => ¬ kv.1 = k)) c.mfdata := by
  unfold remove_package
  dsimp only
  repeat' split
  all_goals rfl

/-- C5: `remove_package` deletes from the store exactly the entries whose
key passes the `is_subkey` scan against `package.path` — positional
equality over the shorter of the two tuples — and leaves every other
entry, with its value, in place. -/
theorem remove_package_frame {V : Type} (c : PackageContainer V) (p : Package)
    (k : List DataKeyItem) (v : V) :
    ((k, v) ∈ (remove_package c p).mfdata ↔
      (k, v) ∈ c.mfdata ∧ isSubkey p.path k = false) ∧
    (isSubkey p.path k = true ↔
      ∀ i, i < min p.path.length k.length → p.path.get? i = k.get? i) := by
  refine ⟨?_, isSubkey_iff p.path k⟩
  rw [remove_package_mfdata, mem_foldl_del]
  constructor
  · rintro ⟨h1, h2⟩
    refine ⟨h1, ?_⟩
    cases hk : isSubkey p.path k with
    | false => rfl
    | true =>
      exact absurd
        (List.mem_filter.mpr ⟨List.mem_map.mpr ⟨(k, v), h1, rfl⟩, hk⟩) h2
  · rintro ⟨h1, h2⟩
    refine ⟨h1, fun hmem => ?_⟩
    have htrue := (List.mem_filter.mp hmem).2
    rw [h2] at htrue
    exact Bool.false_ne_true htrue

/-- Container with one store entry under `pkgWEL1`'s path and one
unrelated entry. -/
def contMixed : PackageContainer Nat :=
  { packagelist := [pkgWEL1]
    package_type_dict := [("wel", [pkgWEL1])]
    package_name_dict := [("wel-1", pkgWEL1)]
    package_filename_dict := []
    mfdata := [([.s "gwf1", .s "wel", .s "WEL-1", .s "period", .i 1], 7),
               ([.s "gwf1", .s "riv", .s "RIV-1", .s "period", .i 1], 3)] }

theorem remove_package_frame_witness :
    ([.s "gwf1", .s "riv", .s "RIV-1", .s "period", .i 1], (3 : Nat)) ∈
        (remove_package contMixed pkgWEL1).mfdata ∧
    ¬ (([.s "gwf1", .s "wel", .s "WEL-1", .s "period", .i 1], (7 : Nat)) ∈
        (remove_package contMixed pkgWEL1).mfdata) := by
  constructor
  · exact (remove_package_frame contMixed pkgWEL1 _ _).1.mpr
      ⟨by decide, by decide⟩
  · intro h
    exact absurd ((remove_package_frame contMixed pkgWEL1 _ _).1.mp h).2
      (by decide)

lemma splitOnChar_ne_nil (sep : Char) (l : List Char) :
    splitOnChar sep l ≠ [] := by
  induction l with
  | nil => simp [splitOnChar]
  | cons c cs ih =>
    rw [splitOnChar]
    split
    · simp
    · cases h : splitOnChar sep cs with
      | nil => exact absurd h ih
      | cons g gs => simp [h]

lemma splitOnChar_append (sep : Char) (xs ys : List Char) :
    splitOnChar sep (xs ++ sep :: ys) =
      splitOnChar sep xs ++ splitOnChar sep ys := by
  induction xs with
  | nil => simp [splitOnChar]
  | cons c cs ih =>
    obtain ⟨g, gs, hg⟩ : ∃ g gs, splitOnChar sep cs = g :: gs := by
      cases h : splitOnChar sep cs with
      | nil => exact absurd h (splitOnChar_ne_nil sep cs)
      | cons g gs => exact ⟨g, gs, rfl⟩
    by_cases hc : c = sep
    · subst hc
      simp [splitOnChar, ih]
    · simp only [List.cons_append, splitOnChar, if_neg hc]
      simp only [List.append_eq]
      rw [ih, hg]
      simp [hg]

lemma partsOf_append (xs ys : List Char) :
    partsOf (xs ++ '/' :: ys) = partsOf xs ++ partsOf ys := by
  unfold partsOf
  rw [splitOnChar_append, List.filter_append]

lemma isPrefixOf_self_append {α : Type} [BEq α] [LawfulBEq α]
    (l r : List α) : l.isPrefixOf (l ++ r) = true := by
  induction l with
  | nil => simp [List.isPrefixOf]
  | cons a as ih => simp [List.isPrefixOf, ih]

lemma mem_partsOf_ne_nil {g : List Char} {l : List Char}
    (h : g ∈ partsOf l) : g ≠ [] := by
  have h2 := of_decide_eq_true (List.mem_filter.mp h).2
  push_neg at h2
  exact h2.1

lemma joinComps_ne_nil {g : List Char} (hg : g ≠ [])
    (gs : List (List Char)) : joinComps (g :: gs) ≠ [] := by
  cases gs with
  | nil => simpa [joinComps] using hg
  | cons h t => simp [joinComps]

lemma pathStr_ne_empty (s : String) : ¬ pathStr s = "" := by
  intro h
  have hd : pathStrData (isabs s) (partsOf s.data) = ([] : List Char) :=
    congrArg String.data h
  unfold pathStrData at hd
  cases hcs : partsOf s.data with
  | nil =>
    rw [hcs] at hd
    split at hd <;> simp_all
  | cons g gs =>
    have hg : g ≠ [] := mem_partsOf_ne_nil (hcs ▸ List.mem_cons_self g gs)
    rw [hcs] at hd
    split at hd
    · simp at hd
    · rw [if_neg (by simp)] at hd
      exact joinComps_ne_nil hg gs hd

lemma eq_append_of_getLast? :
    ∀ {l : List Char} {a : Char}, l.getLast? = some a → ∃ xs, l = xs ++ [a]
  | [], a, h => by simp at h
  | [x], a, h => by
    simp only [List.getLast?_singleton, Option.some.injEq] at h
    exact ⟨[], by simp [h]⟩
  | x :: y :: ys, a, h => by
    rw [List.getLast?_cons_cons] at h
    obtain ⟨xs, hxs⟩ := eq_append_of_getLast? h
    exact ⟨x :: xs, by simp [hxs]⟩

lemma data_ne_nil_of_ne_empty {s : String} (h : ¬ s = "") : s.data ≠ [] := by
  intro hd
  apply h
  cases s
  simp_all

/-- Reduction of `strip_model_relative_path` past the registration lookup
and the triviality test. -/
lemma strip_reduce (st : MFFileMgmt) (m path rp : String)
    (hreg : dictGet? st.model_relative_path m = some rp)
    (hcond : ¬ (isabs rp = true ∨ pathStr rp = "" ∨ pathStr rp = ".")) :
    strip_model_relative_path st m path =
      match relativeToParts (isabs path) (partsOf path.data) (isabs rp)
          (partsOf rp.data) with
      | some r => ⟨⟨pathStrData false r⟩, false⟩
      | none => ⟨pathStr path, true⟩ := by
  unfold strip_model_relative_path
  simp only [hreg]
  rw [if_neg hcond]

/-- Joining a nonempty relative base with a relative tail concatenates the
normalized components and keeps the result relative. -/
lemma joinPath_parts (rp t : String) (hrpne : ¬ rp = "")
    (habt : isabs t = false) :
    partsOf (joinPath rp t).data = partsOf rp.data ++ partsOf t.data ∧
    isabs (joinPath rp t) = isabs rp := by
  have hdne : rp.data ≠ [] := data_ne_nil_of_ne_empty hrpne
  unfold joinPath
  rw [if_neg (by simp [habt])]
  by_cases hsl : rp = "" ∨ rp.data.getLast? = some '/'
  · rw [if_pos hsl]
    rcases hsl with h | hsl
    · exact absurd h hrpne
    · obtain ⟨xs, hxs⟩ := eq_append_of_getLast? hsl
      have hrpxs : partsOf (xs ++ ['/']) = partsOf xs := by
        rw [show xs ++ ['/'] = xs ++ '/' :: ([] : List Char) from rfl,
          partsOf_append]
        simp [partsOf, splitOnChar]
      constructor
      · rw [String.data_append, hxs, List.append_assoc,
          List.singleton_append, partsOf_append, hrpxs]
      · simp [isabs, String.data_append,
          List.head?_append_of_ne_nil rp.data hdne]
  · rw [if_neg hsl]
    constructor
    · rw [String.data_append, String.data_append,
        show ("/" : String).data = ['/'] from rfl, List.append_assoc,
        List.singleton_append, partsOf_append]
    · rw [show rp ++ "/" ++ t = rp ++ ("/" ++ t) from by
        rw [String.append_assoc]]
      simp [isabs, String.data_append,
        List.head?_append_of_ne_nil rp.data hdne]

/-- C6: for a registered model whose relative path is relative and
non-trivial, stripping the join of that relative path with any tail
returns the tail in normalized forward-slash form; for an unregistered
model, or one whose relative path is absolute or trivial (`.` — the
string form of the empty path), the input comes back verbatim with no
warning. -/
theorem strip_model_relative_path_spec (st : MFFileMgmt) (m rp t p : String) :
    (dictGet? st.model_relative_path m = some rp → isabs rp = false →
      ¬ pathStr rp = "." →
      (strip_model_relative_path st m (joinPath rp t)).result = pathStr t) ∧
    ((dictGet? st.model_relative_path m = none ∨
        (dictGet? st.model_relative_path m = some rp ∧
          (isabs rp = true ∨ pathStr rp = "."))) →
      strip_model_relative_path st m p = ⟨p, false⟩) := by
  constructor
  · intro hreg habs hnt
    have hrpne : ¬ rp = "" := fun h => hnt (by rw [h]; decide)
    have hcond : ¬ (isabs rp = true ∨ pathStr rp = "" ∨ pathStr rp = ".") := by
      push_neg
      exact ⟨by simp [habs], pathStr_ne_empty rp, hnt⟩
    rw [strip_reduce st m (joinPath rp t) rp hreg hcond]
    by_cases habt : isabs t = true
    · have hjoin : joinPath rp t = t := by simp [joinPath, habt]
      rw [hjoin]
      have hmis : relativeToParts (isabs t) (partsOf t.data) (isabs rp)
          (partsOf rp.data) = none := by
        unfold relativeToParts
        rw [if_neg]
        rintro ⟨h1, -⟩
        rw [habt, habs] at h1
        simp at h1
      rw [hmis]
    · have habtf : isabs t = false := by simpa using habt
      obtain ⟨hparts, habsj⟩ := joinPath_parts rp t hrpne habtf
      have hsome : relativeToParts (isabs (joinPath rp t))
          (partsOf (joinPath rp t).data) (isabs rp) (partsOf rp.data) =
            some (partsOf t.data) := by
        rw [hparts, habsj]
        unfold relativeToParts
        rw [if_pos ⟨rfl, isPrefixOf_self_append _ _⟩, List.drop_left]
      rw [hsome]
      show (⟨pathStrData false (partsOf t.data)⟩ : String) = pathStr t
      unfold pathStr
      rw [habtf]
  · rintro (hnone | ⟨hsome, hcond⟩)
    · unfold strip_model_relative_path
      simp only [hnone]
    · unfold strip_model_relative_path
      simp only [hsome]
      rw [if_pos (by tauto)]

theorem strip_model_relative_path_spec_witness :
    (strip_model_relative_path exSt "m" (joinPath "model1" "sub/f.txt")).result
        = pathStr "sub/f.txt" ∧
    pathStr "sub/f.txt" = "sub/f.txt" ∧
    joinPath "model1" "sub/f.txt" = "model1/sub/f.txt" ∧
    strip_model_relative_path exSt "zz" "whatever" = ⟨"whatever", false⟩ := by
  refine ⟨(strip_model_relative_path_spec exSt "m" "model1" "sub/f.txt" "x").1
      (by decide) (by decide) (by decide), by decide, by decide,
    (strip_model_relative_path_spec exSt "zz" "model1" "t" "whatever").2
      (Or.inl (by decide))⟩

/-- C7 (amended): when the path does not begin with the registered
relative-path prefix, `strip_model_relative_path` does not raise — the
`ValueError` is caught — and it emits a warning and returns the input
path in normalized forward-slash form (equal to the input whenever the
input is already normalized, but not verbatim in general). -/
theorem strip_mismatch_warns (st : MFFileMgmt) (m rp p : String)
    (hreg : dictGet? st.model_relative_path m = some rp)
    (hcond : ¬ (isabs rp = true ∨ pathStr rp = "" ∨ pathStr rp = "."))
    (hmis : relativeToParts (isabs p) (partsOf p.data) (isabs rp)
        (partsOf rp.data) = none) :
    strip_model_relative_path st m p = ⟨pathStr p, true⟩ := by
  rw [strip_reduce st m p rp hreg hcond, hmis]

theorem strip_mismatch_warns_witness :
    strip_model_relative_path exSt "m" "other//file.txt" =
      ⟨pathStr "other//file.txt", true⟩ ∧
    pathStr "other//file.txt" = "other/file.txt" :=
  ⟨strip_mismatch_warns exSt "m" "model1" "other//file.txt" (by decide)
    (by decide) (by decide), by decide⟩

/-- C7 counterexample: the path `other//file.txt` does not begin with
model `m`'s registered relative path `model1`, and the returned value is
`other/file.txt` — the POSIX-normalized form — not the original input
unmodified. -/
theorem strip_counterexample :
    ¬ ((strip_model_relative_path exSt "m" "other//file.txt").result
        = "other//file.txt") := by decide

/-- Numeric value of a decimal digit character. -/
def charVal (c : Char) : Nat := c.toNat - 48

/-- Value of a decimal digit string (most significant first). -/
def digitsVal (l : List Char) : Nat :=
  l.foldl (fun a c => a * 10 + charVal c) 0

lemma foldl_digitsVal (l : List Char) :
    ∀ a : Nat, l.foldl (fun a c => a * 10 + charVal c) a =
      a * 10 ^ l.length + digitsVal l := by
  induction l with
  | nil => intro a; simp [digitsVal]
  | cons c cs ih =>
    intro a
    have hd : digitsVal (c :: cs) = charVal c * 10 ^ cs.length + digitsVal cs := by
      have h0 : digitsVal (c :: cs) =
          List.foldl (fun a c => a * 10 + charVal c) (0 * 10 + charVal c) cs := rfl
      rw [h0, ih (0 * 10 + charVal c)]
      ring_nf
    rw [List.foldl_cons, ih (a * 10 + charVal c), hd]
    simp [pow_succ]
    ring

lemma charVal_digitChar : ∀ k < 10, charVal (Nat.digitChar k) = k := by decide

lemma toDigitsCore_val :
    ∀ (fuel n : Nat) (ds : List Char), n < fuel →
      digitsVal (Nat.toDigitsCore 10 fuel n ds) =
        n * 10 ^ ds.length + digitsVal ds := by
  intro fuel
  induction fuel with
  | zero => intro n ds h; omega
  | succ fuel ih =>
    intro n ds h
    rw [Nat.toDigitsCore]
    have hmod : n % 10 < 10 := Nat.mod_lt n (by omega)
    have hvald : digitsVal (Nat.digitChar (n % 10) :: ds) =
        (n % 10) * 10 ^ ds.length + digitsVal ds := by
      have h0 : digitsVal (Nat.digitChar (n % 10) :: ds) =
          List.foldl (fun a c => a * 10 + charVal c)
            (0 * 10 + charVal (Nat.digitChar (n % 10))) ds := rfl
      rw [h0, foldl_digitsVal ds, charVal_digitChar (n % 10) hmod]
      simp
    by_cases hdiv : n / 10 = 0
    · rw [if_pos hdiv, hvald]
      have : n % 10 = n := by omega
      rw [this]
    · rw [if_neg hdiv]
      have hn10 : n / 10 < fuel := by
        have h1 : 0 < n := by
          rcases Nat.eq_zero_or_pos n with h0 | h0
          · subst h0; simp at hdiv
          · exact h0
        have := Nat.div_lt_self h1 (by omega : 1 < 10)
        omega
      rw [ih (n / 10) (Nat.digitChar (n % 10) :: ds) hn10, hvald]
      have hdm : 10 * (n / 10) + n % 10 = n := Nat.div_add_mod n 10
      calc n / 10 * 10 ^ (Nat.digitChar (n % 10) :: ds).length +
            (n % 10 * 10 ^ ds.length + digitsVal ds)
          = (10 * (n / 10) + n % 10) * 10 ^ ds.length + digitsVal ds := by
            simp [pow_succ]; ring
        _ = n * 10 ^ ds.length + digitsVal ds := by rw [hdm]

lemma digitsVal_repr (n : Nat) : digitsVal (Nat.repr n).data = n := by
  have h := toDigitsCore_val (n + 1) n [] (by omega)
  have hdata : (Nat.repr n).data = Nat.toDigitsCore 10 (n + 1) n [] := rfl
  rw [hdata, h]
  simp [digitsVal]

lemma repr_inj_nat {m n : Nat} (h : Nat.repr m = Nat.repr n) : m = n := by
  have := congrArg (fun s => digitsVal s.data) h
  simpa [digitsVal_repr] using this

lemma append_repr_cancel {a E : List Char} {m n : Nat}
    (h : a ++ (Nat.repr m).data ++ E = a ++ (Nat.repr n).data ++ E) : m = n := by
  rw [List.append_assoc, List.append_assoc] at h
  have h1 := List.append_cancel_left h
  have h2 := List.append_cancel_right h1
  have h3 := congrArg digitsVal h2
  rwa [digitsVal_repr, digitsVal_repr] at h3

lemma build_file_inj (f : String) {m n : Nat}
    (h : build_file f m = build_file f n) : m = n := by
  simp only [build_file] at h
  by_cases hfe : (splitext f).2 = ""
  · rw [if_neg (fun hc => hc hfe), if_neg (fun hc => hc hfe)] at h
    have hd := congrArg String.data h
    simp only [String.data_append] at hd
    have h1 := List.append_cancel_left hd
    have h3 := congrArg digitsVal h1
    rwa [digitsVal_repr, digitsVal_repr] at h3
  · rw [if_pos hfe, if_pos hfe] at h
    have hd := congrArg String.data h
    simp only [String.data_append] at hd
    exact append_repr_cancel hd

lemma exists_build_file_notMem (f : String) (lookup : List String) :
    ∃ k, k ≤ lookup.length ∧ build_file f k ∉ lookup := by
  by_contra hcon
  push_neg at hcon
  have hmaps : ∀ a ∈ Finset.range (lookup.length + 1),
      build_file f a ∈ lookup.toFinset := by
    intro a ha
    rw [List.mem_toFinset]
    exact hcon a (Nat.lt_succ_iff.mp (Finset.mem_range.mp ha))
  have hinj : Set.InjOn (build_file f) (Finset.range (lookup.length + 1)) :=
    fun a _ b _ h => build_file_inj f h
  have hcard := Finset.card_le_card_of_injOn (build_file f) hmaps hinj
  rw [Finset.card_range] at hcard
  have hlen := lookup.toFinset_card_le
  omega

lemma findAbsentNum_spec (f : String) (lookup : List String) :
    ∀ (fuel start : Nat), (∃ k < fuel, build_file f (start + k) ∉ lookup) →
      build_file f (findAbsentNum f lookup fuel start) ∉ lookup ∧
      (∀ j, start ≤ j → j < findAbsentNum f lookup fuel start →
        build_file f j ∈ lookup) ∧
      start ≤ findAbsentNum f lookup fuel start := by
  intro fuel
  induction fuel with
  | zero =>
    rintro start ⟨k, hk, -⟩
    omega
  | succ fuel ih =>
    rintro start ⟨k, hk, hout⟩
    rw [findAbsentNum]
    by_cases hmem : build_file f start ∈ lookup
    · rw [if_pos hmem]
      have hk0 : ¬ k = 0 := by
        intro h0
        subst h0
        exact hout (by simpa using hmem)
      have hex : ∃ j < fuel, build_file f (start + 1 + j) ∉ lookup :=
        ⟨k - 1, by omega,
          by rw [show start + 1 + (k - 1) = start + k from by omega]; exact hout⟩
      obtain ⟨h1, h2, h3⟩ := ih (start + 1) hex
      refine ⟨h1, fun j hj1 hj2 => ?_, by omega⟩
      by_cases hj : j = start
      · subst hj; exact hmem
      · exact h2 j (by omega) hj2
    · rw [if_neg hmem]
      exact ⟨hmem, fun j hj1 hj2 => absurd (by omega : (1 : Nat) = 0) (by omega),
        Nat.le_refl start⟩

/-- C10: `unique_file_name` terminates with a name absent from the
lookup; the returned name is `build_file f n` — the stem with `_n` spliced
in before the extension, a bare `_n` suffix when `splitext` finds no
extension — for the least `n` whose generated name is not in the
lookup. -/
theorem unique_file_name_spec (f : String) (lookup : List String) :
    unique_file_name f lookup ∉ lookup ∧
    ∃ n, unique_file_name f lookup = build_file f n ∧
      (∀ m, m < n → build_file f m ∈ lookup) ∧
      build_file f n =
        (splitext f).1 ++ "_" ++ Nat.repr n ++ (splitext f).2 := by
  obtain ⟨k, hk, hout⟩ := exists_build_file_notMem f lookup
  have hex : ∃ j < lookup.length + 1, build_file f (0 + j) ∉ lookup :=
    ⟨k, by omega, by simpa using hout⟩
  obtain ⟨h1, h2, h3⟩ := findAbsentNum_spec f lookup (lookup.length + 1) 0 hex
  refine ⟨h1, findAbsentNum f lookup (lookup.length + 1) 0, rfl,
    fun m hm => h2 m (by omega) hm, ?_⟩
  simp only [build_file]
  by_cases hfe : (splitext f).2 = ""
  · rw [if_neg (fun hc => hc hfe), hfe]
    rw [String.append_empty]
  · rw [if_pos hfe]

theorem unique_file_name_spec_witness :
    unique_file_name "data.txt" ["data_0.txt", "data_1.txt"] ∉
      ["data_0.txt", "data_1.txt"] ∧
    unique_file_name "data.txt" ["data_0.txt", "data_1.txt"] = "data_2.txt" :=
  ⟨(unique_file_name_spec "data.txt" ["data_0.txt", "data_1.txt"]).1,
    by decide⟩
